import Mathlib

/-
Verification of the GraphML export pipeline of ndex_webapp_python_exporters.

Shallow embedding of src/ndex_webapp_python_exporters/exporters.py
(class GraphMLExporter) and src/ndex_webapp_python_exporters/ndex_exporters.py
(function main).  The exporter consumes a NiceCXNetwork object produced by the
third-party ndex2 library; the slice of that interface the exporter reads
(get_nodes, get_edges, get_node_attributes, get_edge_attributes,
networkAttributes, get_name) is modelled by the structure CxNetwork below.
XML emission through xml.etree.cElementTree is modelled by explicit element
records plus a renderer implementing ElementTree's serialization with its
escaping rules.
-/

namespace NdexGraphML

/-- Python runtime values appearing as CX node/edge/attribute values after
json decoding.  Floats and nested JSON objects are omitted: no claim depends
on a float or object value, and every modelled operation treats them like any
other scalar. -/
inductive PyVal where
  | pyInt (i : Int)
  | pyStr (s : String)
  | pyBool (b : Bool)
  | pyNone
  | pyList (elems : List PyVal)

mutual

/-- Python repr() of a value, as used by str() on list elements.  repr of a
string is modelled for strings without embedded quotes or escapes (the only
ones exercised here). -/
def pyRepr : PyVal → String
  | .pyInt i => toString i
  | .pyStr s => "'" ++ s ++ "'"
  | .pyBool b => if b then "True" else "False"
  | .pyNone => "None"
  | .pyList xs => "[" ++ pyReprList xs ++ "]"

/-- The reprs of a list of values joined with comma-space, as inside a
Python list display. -/
def pyReprList : List PyVal → String
  | [] => ""
  | [x] => pyRepr x
  | x :: y :: rest => pyRepr x ++ ", " ++ pyReprList (y :: rest)

end

/-- Python str() of a value: identity on strings, decimal on ints,
True/False on bools, None, and for lists the bracketed comma-separated
reprs of the elements (CPython: str of a list uses repr of each element). -/
def pyToStr : PyVal → String
  | .pyInt i => toString i
  | .pyStr s => s
  | .pyBool b => if b then "True" else "False"
  | .pyNone => "None"
  | .pyList xs => "[" ++ pyReprList xs ++ "]"

/-- Python type(v).__name__ for the modelled values. -/
def pyTypeName : PyVal → String
  | .pyInt _ => "int"
  | .pyStr _ => "str"
  | .pyBool _ => "bool"
  | .pyNone => "NoneType"
  | .pyList _ => "list"

/-- A Python dict in insertion order, as iterated by dict.items(). -/
abbrev PyDict := List (String × PyVal)

/-- dict.get semantics: first binding of the key, if any. -/
def dictGet (d : PyDict) (k : String) : Option PyVal :=
  (d.find? (fun p => p.1 = k)).map (fun p => p.2)

/-- One CX attribute record as stored by ndex2: name n, value v, optional
declared type d.  The owner id po is not a field here because the exporter
never reads it; ownership is the key of the association lists in CxNetwork. -/
structure AttrRec where
  n : String
  v : PyVal
  d : Option String

/-- Association-list lookup by integer id (dict.get on an int-keyed dict). -/
def assocGet {α : Type} (l : List (Int × α)) (k : Int) : Option α :=
  (l.find? (fun p => p.1 = k)).map (fun p => p.2)

/-- The slice of the ndex2 NiceCXNetwork interface read by GraphMLExporter.
nodes/edges are the (id, dict) pairs yielded by get_nodes()/get_edges();
nodeAttributes/edgeAttributes are keyed by owner id and yield the attribute
lists returned by get_node_attributes/get_edge_attributes (a missing entry
models the None those calls return for an id without attributes; list entries
are Option because the exporter guards each one against None);
networkAttributes and the network name (get_name(), None when unset) are as
stored on the network object. -/
structure CxNetwork where
  nodes : List (Int × PyDict)
  edges : List (Int × PyDict)
  nodeAttributes : List (Int × List (Option AttrRec))
  edgeAttributes : List (Int × List (Option AttrRec))
  networkAttributes : List AttrRec
  networkName : Option String

/-- ndex2 get_node_attributes(node): look the node's @id up in the
nodeAttributes dict; None when the id is absent or the dict has no usable
@id entry. -/
def get_node_attributes (net : CxNetwork) (node : PyDict) : Option (List (Option AttrRec)) :=
  match dictGet node "@id" with
  | some (.pyInt i) => assocGet net.nodeAttributes i
  | _ => none

/-- ndex2 get_edge_attributes(edge), symmetric to get_node_attributes. -/
def get_edge_attributes (net : CxNetwork) (edge : PyDict) : Option (List (Option AttrRec)) :=
  match dictGet edge "@id" with
  | some (.pyInt i) => assocGet net.edgeAttributes i
  | _ => none

/-- str(get_name()): the stored name, or the string "None" when unset. -/
def get_name_str (net : CxNetwork) : String :=
  match net.networkName with
  | some s => s
  | none => "None"

/-- GraphMLExporter._convert_data_type: maps the Python type names int, str,
bool, float to GraphML primitives and returns every other token (including
"list" and the CX "list_of_*" declared types) unchanged. -/
def convert_data_type (data_type : String) : String :=
  if data_type = "int" then "integer"
  else if data_type = "str" then "string"
  else if data_type = "bool" then "boolean"
  else if data_type = "float" then "double"
  else data_type

/-- GraphMLExporter._translate_edge_key_names.  The source compares with the
Python `is` operator against interned literals; for the strings reaching this
function that behaves as equality (modelled as =). -/
def translate_edge_key_names (val : String) : String :=
  if val = "i" then "interaction"
  else if val = "@id" then "key"
  else val

/-- GraphMLExporter._translate_node_key_names (source uses `is` against the
single-character interned constants n and r, which behaves as equality). -/
def translate_node_key_names (val : String) : String :=
  if val = "n" then "name"
  else if val = "r" then "represents"
  else val

/-- A childless XML element as built by ET.Element: tag, attributes in
insertion order, optional text. -/
structure LeafEl where
  tag : String
  attrs : List (String × String)
  text : Option String
deriving DecidableEq

/-- An XML element whose children are data elements (node and edge elements). -/
structure ParentEl where
  tag : String
  attrs : List (String × String)
  children : List LeafEl
deriving DecidableEq

/-- Attribute lookup on an emitted element. -/
def lookupAttr (attrs : List (String × String)) (k : String) : Option String :=
  (attrs.find? (fun p => p.1 = k)).map (fun p => p.2)

/-- The id attribute of a key element. -/
def idOf (l : LeafEl) : Option String := lookupAttr l.attrs "id"

/-- The attr.type attribute of a key element. -/
def attrTypeOf (l : LeafEl) : Option String := lookupAttr l.attrs "attr.type"

/-- The key attribute of a data element. -/
def dataKeyOf (l : LeafEl) : Option String := lookupAttr l.attrs "key"

/-- The ids declared by a list of key elements. -/
def keyIds (ls : List LeafEl) : List String := ls.filterMap idOf

/-- The key attributes referenced by a list of data elements. -/
def dataKeys (ls : List LeafEl) : List String := ls.filterMap dataKeyOf

/-- Data elements produced by the first loop of
GraphMLExporter._get_xml_for_under_node: every inline node dict item except
@id yields a data element keyed by the translated name, with str(value) as
text. -/
def nodeInlineData (node : PyDict) : List LeafEl :=
  node.filterMap (fun p =>
    if p.1 = "@id" then none
    else some ⟨"data", [("key", translate_node_key_names p.1)], some (pyToStr p.2)⟩)

/-- Data elements produced by the second loop of _get_xml_for_under_node:
None entries and records named "@id" are skipped; others yield a data element
keyed by the translated record name. -/
def nodeAttrData (attrs : List (Option AttrRec)) : List LeafEl :=
  attrs.filterMap (fun o =>
    match o with
    | none => none
    | some a =>
      if a.n = "@id" then none
      else some ⟨"data", [("key", translate_node_key_names a.n)], some (pyToStr a.v)⟩)

/-- GraphMLExporter._get_xml_for_under_node: the inline data elements, then
(unless get_node_attributes is None) the attribute data elements appended. -/
def get_xml_for_under_node (net : CxNetwork) (node : PyDict) : List LeafEl :=
  match get_node_attributes net node with
  | none => nodeInlineData node
  | some attrs => nodeInlineData node ++ nodeAttrData attrs

/-- GraphMLExporter._generate_xml_for_nodes: one node element per
get_nodes() entry, id = str(node key), children from
_get_xml_for_under_node. -/
def generate_xml_for_nodes (net : CxNetwork) : List ParentEl :=
  net.nodes.map (fun p =>
    ⟨"node", [("id", toString p.1)], get_xml_for_under_node net p.2⟩)

/-- Data elements from the first loop of
GraphMLExporter._get_xml_for_under_edge: inline edge dict items except
@id, s, t, keyed by the translated name. -/
def edgeInlineData (edge : PyDict) : List LeafEl :=
  edge.filterMap (fun p =>
    if p.1 = "@id" ∨ p.1 = "s" ∨ p.1 = "t" then none
    else some ⟨"data", [("key", translate_edge_key_names p.1)], some (pyToStr p.2)⟩)

/-- Data elements from the second loop of _get_xml_for_under_edge: None
entries and records named s or t are skipped; for every other record the
source first assigns eattrib from the name-specific branches (i to
interaction, v to directed) and then unconditionally overwrites the single
dict entry with eattrib[KEY] = str(edge_key), so the emitted key attribute is
always the raw record name. -/
def edgeAttrData (attrs : List (Option AttrRec)) : List LeafEl :=
  attrs.filterMap (fun o =>
    match o with
    | none => none
    | some a =>
      if a.n = "s" ∨ a.n = "t" then none
      else some ⟨"data", [("key", a.n)], some (pyToStr a.v)⟩)

/-- GraphMLExporter._get_xml_for_under_edge: the inline data elements, then
(unless get_edge_attributes is None) the attribute data elements appended. -/
def get_xml_for_under_edge (net : CxNetwork) (edge : PyDict) : List LeafEl :=
  match get_edge_attributes net edge with
  | none => edgeInlineData edge
  | some attrs => edgeInlineData edge ++ edgeAttrData attrs

/-- GraphMLExporter._generate_xml_for_edges: one edge element per edge with
source = str(edge[s]) and target = str(edge[t]); a missing s or t raises
KeyError in the source, modelled as none. -/
def generate_xml_for_edges (net : CxNetwork) : Option (List ParentEl) :=
  net.edges.mapM (fun p =>
    match dictGet p.2 "s", dictGet p.2 "t" with
    | some sv, some tv =>
      some ⟨"edge", [("source", pyToStr sv), ("target", pyToStr tv)],
            get_xml_for_under_edge net p.2⟩
    | _, _ => none)

/-- GraphMLExporter._generate_xml_for_data: one data element per network
attribute record, keyed by the record name, with no deduplication and no
exclusion of the record named "name". -/
def generate_xml_for_data (net : CxNetwork) : List LeafEl :=
  net.networkAttributes.map (fun a =>
    ⟨"data", [("key", a.n)], some (pyToStr a.v)⟩)

/-- The key element built for a network attribute in the loop body of
GraphMLExporter._generate_xml_for_net_keys: attr.name, then attr.type (from
the declared type d when present, else from the runtime type of the value;
omitted when the value is None), then for = graph and id = the name. -/
def netAttrKeySpec (a : AttrRec) : LeafEl :=
  ⟨"key",
   [("attr.name", a.n)] ++
   (match a.v, a.d with
    | .pyNone, _ => []
    | _, some dt => [("attr.type", convert_data_type dt)]
    | v, none => [("attr.type", convert_data_type (pyTypeName v))]) ++
   [("for", "graph"), ("id", a.n)],
   none⟩

/-- GraphMLExporter._generate_xml_for_net_keys: walk the network attribute
records, skipping names already in netkeyset, emitting netAttrKeySpec at each
first occurrence. -/
def netKeysGo : List AttrRec → List String → List LeafEl
  | [], _ => []
  | a :: rest, seen =>
    if a.n ∈ seen then netKeysGo rest seen
    else netAttrKeySpec a :: netKeysGo rest (a.n :: seen)

/-- GraphMLExporter._generate_xml_for_net_keys with its initially empty key
set. -/
def generate_xml_for_net_keys (net : CxNetwork) : List LeafEl :=
  netKeysGo net.networkAttributes []

/-- A fixed key element as written by _write_name_represents_keys and
_write_interaction_keys: attribute order for, id, attr.name, attr.type. -/
def fixedKeySpec (scope : String) (entry : String) : LeafEl :=
  ⟨"key", [("for", scope), ("id", entry), ("attr.name", entry), ("attr.type", "string")], none⟩

/-- GraphMLExporter._write_name_represents_keys: the two pre-seeded
node-scope keys.  The source iterates a two-element set whose order is
hash-dependent; the model fixes the listed order (no claim depends on the
order between the two). -/
def write_name_represents_keys : List LeafEl :=
  [fixedKeySpec "node" "name", fixedKeySpec "node" "represents"]

/-- GraphMLExporter._write_interaction_keys: the two pre-seeded edge-scope
keys (same set-iteration caveat as write_name_represents_keys). -/
def write_interaction_keys : List LeafEl :=
  [fixedKeySpec "edge" "interaction", fixedKeySpec "edge" "key"]

/-- The key element built for an inline node dict item in the first loop of
_generate_xml_for_node_keys: the untranslated item name, attr.type from the
runtime type (omitted for None), for = node, id = the name. -/
def nodeInlineKeySpec (nid : String) (val : PyVal) : LeafEl :=
  ⟨"key",
   [("attr.name", nid)] ++
   (match val with
    | .pyNone => []
    | v => [("attr.type", convert_data_type (pyTypeName v))]) ++
   [("for", "node"), ("id", nid)],
   none⟩

/-- The key element built for a node attribute record in the second loop of
_generate_xml_for_node_keys: the translated name, attr.type from the runtime
type of the value only (the declared type d is never consulted in this loop),
for = node, id = the translated name. -/
def nodeAttrKeySpec (a : AttrRec) : LeafEl :=
  ⟨"key",
   [("attr.name", translate_node_key_names a.n)] ++
   (match a.v with
    | .pyNone => []
    | v => [("attr.type", convert_data_type (pyTypeName v))]) ++
   [("for", "node"), ("id", translate_node_key_names a.n)],
   none⟩

/-- First loop of _generate_xml_for_node_keys over node.items(): skip @id, n,
r and names already in nodekeyset; otherwise add the name to the set and emit
nodeInlineKeySpec.  Returns the updated set with the emitted elements. -/
def nodeInlineKeysGo : List (String × PyVal) → List String → List String × List LeafEl
  | [], kset => (kset, [])
  | (nid, val) :: rest, kset =>
    if nid = "@id" ∨ nid = "n" ∨ nid = "r" then nodeInlineKeysGo rest kset
    else if nid ∈ kset then nodeInlineKeysGo rest kset
    else
      let r := nodeInlineKeysGo rest (nid :: kset)
      (r.1, nodeInlineKeySpec nid val :: r.2)

/-- Second loop of _generate_xml_for_node_keys over the node's attribute
records: skip None entries and translated names already in nodekeyset. -/
def nodeAttrKeysGo : List (Option AttrRec) → List String → List String × List LeafEl
  | [], kset => (kset, [])
  | none :: rest, kset => nodeAttrKeysGo rest kset
  | some a :: rest, kset =>
    if translate_node_key_names a.n ∈ kset then nodeAttrKeysGo rest kset
    else
      let r := nodeAttrKeysGo rest (translate_node_key_names a.n :: kset)
      (r.1, nodeAttrKeySpec a :: r.2)

/-- Per-node body of _generate_xml_for_node_keys: after the inline loop, a
node whose get_node_attributes is None executes `return`, ending the whole
generation (all remaining nodes are skipped); otherwise the attribute loop
runs and the walk continues with the next node. -/
def nodeKeysNodesGo (net : CxNetwork) : List (Int × PyDict) → List String → List LeafEl
  | [], _ => []
  | (_, node) :: rest, kset =>
    let r1 := nodeInlineKeysGo node kset
    match get_node_attributes net node with
    | none => r1.2
    | some attrs =>
      let r2 := nodeAttrKeysGo attrs r1.1
      r1.2 ++ r2.2 ++ nodeKeysNodesGo net rest r2.1

/-- GraphMLExporter._generate_xml_for_node_keys: the two fixed keys first,
then the discovered keys with nodekeyset seeded to the fixed names. -/
def generate_xml_for_node_keys (net : CxNetwork) : List LeafEl :=
  write_name_represents_keys ++ nodeKeysNodesGo net net.nodes ["name", "represents"]

/-- The key element built for an edge attribute record in
_generate_xml_for_edge_keys: translated name, attr.type from the declared
type d when present else from the runtime type (omitted for a None value),
for = edge, id = the translated name. -/
def edgeAttrKeySpec (a : AttrRec) : LeafEl :=
  ⟨"key",
   [("attr.name", translate_edge_key_names a.n)] ++
   (match a.v, a.d with
    | .pyNone, _ => []
    | _, some dt => [("attr.type", convert_data_type dt)]
    | v, none => [("attr.type", convert_data_type (pyTypeName v))]) ++
   [("for", "edge"), ("id", translate_edge_key_names a.n)],
   none⟩

/-- Attribute-record loop of _generate_xml_for_edge_keys (skip None entries
and translated names already in edgekeyset). -/
def edgeAttrKeysGo : List (Option AttrRec) → List String → List String × List LeafEl
  | [], kset => (kset, [])
  | none :: rest, kset => edgeAttrKeysGo rest kset
  | some a :: rest, kset =>
    if translate_edge_key_names a.n ∈ kset then edgeAttrKeysGo rest kset
    else
      let r := edgeAttrKeysGo rest (translate_edge_key_names a.n :: kset)
      (r.1, edgeAttrKeySpec a :: r.2)

/-- Edge walk of _generate_xml_for_edge_keys: an edge whose
get_edge_attributes is None is skipped with `continue` (unlike the node
walk, which returns). -/
def edgeKeysEdgesGo (net : CxNetwork) : List (Int × PyDict) → List String → List LeafEl
  | [], _ => []
  | (_, edge) :: rest, kset =>
    match get_edge_attributes net edge with
    | none => edgeKeysEdgesGo net rest kset
    | some attrs =>
      let r := edgeAttrKeysGo attrs kset
      r.2 ++ edgeKeysEdgesGo net rest r.1

/-- GraphMLExporter._generate_xml_for_edge_keys: the two fixed keys first,
then the discovered keys with edgekeyset seeded to the fixed names. -/
def generate_xml_for_edge_keys (net : CxNetwork) : List LeafEl :=
  write_interaction_keys ++ edgeKeysEdgesGo net net.edges ["interaction", "key"]

/-- ElementTree text escaping (_escape_cdata): ampersand, less-than,
greater-than. -/
def escText (s : String) : String :=
  String.join (s.toList.map (fun c =>
    if c = '&' then "&amp;"
    else if c = '<' then "&lt;"
    else if c = '>' then "&gt;"
    else String.singleton c))

/-- ElementTree attribute-value escaping (_escape_attrib): additionally
quotation marks and the whitespace control characters. -/
def escAttrib (s : String) : String :=
  String.join (s.toList.map (fun c =>
    if c = '&' then "&amp;"
    else if c = '<' then "&lt;"
    else if c = '>' then "&gt;"
    else if c = '"' then "&quot;"
    else if c = '\r' then "&#13;"
    else if c = '\n' then "&#10;"
    else if c = '\t' then "&#09;"
    else String.singleton c))

/-- Serialized attribute list, in insertion order, each value
attribute-escaped. -/
def renderAttrs (attrs : List (String × String)) : String :=
  String.join (attrs.map (fun p => " " ++ p.1 ++ "=\"" ++ escAttrib p.2 ++ "\""))

/-- ElementTree serialization of a childless element (default
short_empty_elements: a self-closed tag when the text is None or empty). -/
def renderLeaf (l : LeafEl) : String :=
  match l.text with
  | none => "<" ++ l.tag ++ renderAttrs l.attrs ++ " />"
  | some t =>
    if t = "" then "<" ++ l.tag ++ renderAttrs l.attrs ++ " />"
    else "<" ++ l.tag ++ renderAttrs l.attrs ++ ">" ++ escText t ++ "</" ++ l.tag ++ ">"

/-- ElementTree serialization of a node/edge element with its data
children. -/
def renderParent (p : ParentEl) : String :=
  if p.children.isEmpty then "<" ++ p.tag ++ renderAttrs p.attrs ++ " />"
  else
    "<" ++ p.tag ++ renderAttrs p.attrs ++ ">" ++
      String.join (p.children.map renderLeaf) ++ "</" ++ p.tag ++ ">"

/-- GraphMLExporter._generate_xml: header, the three key blocks, the graph
open tag whose id is str(get_name()) concatenated raw (not escaped), the
network data elements, the node and edge elements (each followed by a
newline, as written by _generate_xml_for_nodes/_edges), and the closing
tags.  None models the KeyError a missing edge s/t raises mid-write. -/
def generate_xml (net : CxNetwork) : Option String :=
  match generate_xml_for_edges net with
  | none => none
  | some edgeEls => some
      ("<?xml version=\"1.0\" encoding=\"UTF-8\" standalone=\"no\"?>" ++ "\n" ++
       "<graphml xmlns=\"http://graphml.graphdrawing.org/xmlns\">\n" ++
       String.join ((generate_xml_for_net_keys net).map renderLeaf) ++
       String.join ((generate_xml_for_node_keys net).map renderLeaf) ++
       String.join ((generate_xml_for_edge_keys net).map renderLeaf) ++
       "\n  <graph edgedefault=\"directed\" id=\"" ++ get_name_str net ++ "\">\n" ++
       String.join ((generate_xml_for_data net).map renderLeaf) ++
       String.join ((generate_xml_for_nodes net).map (fun p => renderParent p ++ "\n")) ++
       String.join (edgeEls.map (fun p => renderParent p ++ "\n")) ++
       "\n</graph>\n</graphml>\n")

/-- GraphMLExporter.export for an already-decoded input: a json.load or
ndex2 loading failure (the .error input) propagates out as an exception; a
KeyError during generation likewise; otherwise the flushed output is
returned together with the status code 0. -/
def GraphMLExporter_export (input : Except String CxNetwork) : Except String (String × Nat) :=
  match input with
  | .error e => .error e
  | .ok net =>
    match generate_xml net with
    | none => .error "KeyError"
    | some s => .ok (s, 0)

/-- ndex_exporters.main for the graphml subcommand: returns
exporter.export(...) on success and 2 from the catch-all exception handler
(the process then exits with that value via sys.exit). -/
def ndex_exporters_main (input : Except String CxNetwork) : Nat :=
  match GraphMLExporter_export input with
  | .ok p => p.2
  | .error _ => 2

/-- All key attributes referenced by data elements nested in the emitted node
elements, in document order. -/
def nodeDataKeys (net : CxNetwork) : List String :=
  ((generate_xml_for_nodes net).map (fun p => dataKeys p.children)).flatten

/-- All key attributes referenced by data elements nested in the emitted edge
elements (none when edge emission raises). -/
def edgeDataKeys (net : CxNetwork) : Option (List String) :=
  (generate_xml_for_edges net).map (fun els => (els.map (fun p => dataKeys p.children)).flatten)

/-- A network with one edge carrying an edge attribute literally named i
(the CX inline name for interaction). -/
def exC1 : CxNetwork :=
  { nodes := [(1, [("@id", .pyInt 1), ("n", .pyStr "A")]),
              (2, [("@id", .pyInt 2), ("n", .pyStr "B")])],
    edges := [(7, [("@id", .pyInt 7), ("s", .pyInt 1), ("t", .pyInt 2)])],
    nodeAttributes := [(1, []), (2, [])],
    edgeAttributes := [(7, [some ⟨"i", .pyStr "binds", none⟩])],
    networkAttributes := [],
    networkName := some "n1" }

/-- C1: refuted by the code.  For the network exC1 the edge data element is
emitted with key "i" (the final assignment in _get_xml_for_under_edge
overwrites the interaction translation with the raw record name), while the
edge scope declares only the keys interaction and key, so a data element
references a key id that was never declared for its scope. -/
theorem c1_undeclared_edge_data_key :
    edgeDataKeys exC1 = some ["i"] ∧
    keyIds (generate_xml_for_edge_keys exC1) = ["interaction", "key"] ∧
    "i" ∉ (["interaction", "key"] : List String) := by
  refine ⟨by decide, by decide, by decide⟩

/-- A network whose first node has no attribute list (ndex2 returns None for
it) while the second node carries an attribute named foo. -/
def exC2 : CxNetwork :=
  { nodes := [(1, [("@id", .pyInt 1), ("n", .pyStr "A")]),
              (2, [("@id", .pyInt 2), ("n", .pyStr "B")])],
    edges := [],
    nodeAttributes := [(2, [some ⟨"foo", .pyStr "x", none⟩])],
    edgeAttributes := [],
    networkAttributes := [],
    networkName := some "n2" }

/-- C2: refuted by the code.  In _generate_xml_for_node_keys the check on
get_node_attributes executes `return` (not `continue`), so for exC2 the walk
stops at node 1 and no key is ever declared for foo, although node 2's foo
attribute is serialized as a data element. -/
theorem c2_truncated_node_keys :
    keyIds (generate_xml_for_node_keys exC2) = ["name", "represents"] ∧
    nodeDataKeys exC2 = ["name", "name", "foo"] ∧
    "foo" ∉ (["name", "represents"] : List String) := by
  refine ⟨by decide, by decide, by decide⟩

/-- C4: for every input, including one with zero nodes and zero edges, the
first two node-scope key elements are the fixed name/represents keys and the
first two edge-scope key elements are the fixed interaction/key keys, all
with attr.type string, emitted before any discovered key. -/
theorem c4_fixed_keys_always_declared (net : CxNetwork) :
    (generate_xml_for_node_keys net).take 2 = write_name_represents_keys ∧
    (generate_xml_for_edge_keys net).take 2 = write_interaction_keys ∧
    keyIds write_name_represents_keys = ["name", "represents"] ∧
    keyIds write_interaction_keys = ["interaction", "key"] ∧
    ∀ l ∈ write_name_represents_keys ++ write_interaction_keys,
      attrTypeOf l = some "string" := by
  refine ⟨rfl, rfl, by decide, by decide, by decide⟩

/-- A network with no nodes or edges whose name contains a quotation mark. -/
def exC8 : CxNetwork :=
  { nodes := [], edges := [], nodeAttributes := [], edgeAttributes := [],
    networkAttributes := [], networkName := some "a\"b" }

set_option maxRecDepth 8000 in
/-- C8: refuted by the code.  _generate_xml interpolates str(get_name())
into the graph open tag by raw string concatenation, so for the network name
a"b the emitted document contains id="a"b" with the quotation mark unescaped
(the text and attribute values written through ElementTree are escaped, but
the graph id is not), unlike the escaped form escAttrib would produce. -/
theorem c8_unescaped_graph_id :
    generate_xml exC8 = some
      ("<?xml version=\"1.0\" encoding=\"UTF-8\" standalone=\"no\"?>\n" ++
       "<graphml xmlns=\"http://graphml.graphdrawing.org/xmlns\">\n" ++
       "<key for=\"node\" id=\"name\" attr.name=\"name\" attr.type=\"string\" />" ++
       "<key for=\"node\" id=\"represents\" attr.name=\"represents\" attr.type=\"string\" />" ++
       "<key for=\"edge\" id=\"interaction\" attr.name=\"interaction\" attr.type=\"string\" />" ++
       "<key for=\"edge\" id=\"key\" attr.name=\"key\" attr.type=\"string\" />" ++
       "\n  <graph edgedefault=\"directed\" id=\"a\"b\">\n" ++
       "\n</graph>\n</graphml>\n") ∧
    escAttrib (get_name_str exC8) = "a&quot;b" ∧
    escAttrib (get_name_str exC8) ≠ get_name_str exC8 := by
  refine ⟨rfl, by decide, by decide⟩

/-- C9: the export call returns the status 0 exactly when it completes
without a fatal failure, and main (whose return value the process exits
with) yields 0 on success and the non-zero code 2 on any uncaught failure
such as a JSON decode error. -/
theorem c9_exit_codes (input : Except String CxNetwork) :
    ((∃ s, GraphMLExporter_export input = .ok (s, 0)) ∧ ndex_exporters_main input = 0) ∨
    ((∃ e, GraphMLExporter_export input = .error e) ∧ ndex_exporters_main input = 2 ∧
      ndex_exporters_main input ≠ 0) := by
  cases input with
  | error e =>
    right
    exact ⟨⟨e, rfl⟩, rfl, fun h => Nat.succ_ne_zero 1 h⟩
  | ok net =>
    cases h : generate_xml net with
    | none =>
      right
      refine ⟨⟨"KeyError", ?_⟩, ?_, ?_⟩ <;>
        simp [GraphMLExporter_export, ndex_exporters_main, h]
    | some s =>
      left
      refine ⟨⟨s, ?_⟩, ?_⟩ <;>
        simp [GraphMLExporter_export, ndex_exporters_main, h]

/-- A network with one node whose attribute int_list has declared type
list_of_integer and value [5, -20]. -/
def exC3 : CxNetwork :=
  { nodes := [(1, [("@id", .pyInt 1), ("n", .pyStr "N")])],
    edges := [],
    nodeAttributes := [(1, [some ⟨"int_list", .pyList [.pyInt 5, .pyInt (-20)], some "list_of_integer"⟩])],
    edgeAttributes := [],
    networkAttributes := [],
    networkName := some "n3" }

/-- C3: refuted by the code.  For the list-valued node attribute int_list
(declared type list_of_integer, value [5, -20]) the declared node key has
attr.type "list" (the runtime type name, passed through _convert_data_type
unchanged), not "string", and the data text is str([5, -20]) = "[5, -20]",
not the pipe-joined "5|-20". -/
theorem c3_list_counterexample :
    generate_xml_for_node_keys exC3 = write_name_represents_keys ++
      [⟨"key", [("attr.name", "int_list"), ("attr.type", "list"),
                ("for", "node"), ("id", "int_list")], none⟩] ∧
    get_xml_for_under_node exC3 [("@id", .pyInt 1), ("n", .pyStr "N")] =
      [⟨"data", [("key", "name")], some "N"⟩,
       ⟨"data", [("key", "int_list")], some "[5, -20]"⟩] ∧
    ("list" : String) ≠ "string" ∧ ("[5, -20]" : String) ≠ "5|-20" := by
  refine ⟨by decide, by decide, by decide, by decide⟩

/-- C3 as amended: for an attribute record whose value is a list, the
node-scope key generated from it has attr.type "list" (the declared type is
ignored in node scope); in the scopes that do honour the declared type
(graph and edge) the declared list_of_* token is passed through
_convert_data_type unchanged; and the data element emitted for it renders
the value as the Python str of the list (bracketed, comma-separated element
reprs), not as a pipe-joined string. -/
theorem c3_list_attr_amended (a : AttrRec) (l : List PyVal)
    (hv : a.v = .pyList l) (hn : a.n ≠ "@id") :
    attrTypeOf (nodeAttrKeySpec a) = some "list" ∧
    (∀ dt, a.d = some dt →
      attrTypeOf (edgeAttrKeySpec a) = some (convert_data_type dt) ∧
      attrTypeOf (netAttrKeySpec a) = some (convert_data_type dt)) ∧
    (∀ attrs : List (Option AttrRec), some a ∈ attrs →
      (⟨"data", [("key", translate_node_key_names a.n)],
        some ("[" ++ pyReprList l ++ "]")⟩ : LeafEl) ∈
        nodeAttrData attrs) := by
  obtain ⟨n, v, d⟩ := a
  simp only at hv hn
  subst hv
  refine ⟨rfl, ?_, ?_⟩
  · intro dt hd
    simp only at hd
    subst hd
    exact ⟨rfl, rfl⟩
  · intro attrs ha
    refine List.mem_filterMap.mpr ⟨some ⟨n, .pyList l, d⟩, ha, ?_⟩
    simp only [if_neg hn]
    rfl

/-- The concrete record used to witness c3_list_attr_amended. -/
def aW3 : AttrRec := ⟨"int_list", .pyList [.pyInt 5, .pyInt (-20)], some "list_of_integer"⟩

/-- Witness for c3_list_attr_amended at the record aW3. -/
theorem c3_list_attr_amended_witness :
    attrTypeOf (nodeAttrKeySpec aW3) = some "list" ∧
    attrTypeOf (edgeAttrKeySpec aW3) = some "list_of_integer" ∧
    (⟨"data", [("key", "int_list")], some "[5, -20]"⟩ : LeafEl) ∈ nodeAttrData [some aW3] := by
  have h := c3_list_attr_amended aW3 [.pyInt 5, .pyInt (-20)] rfl (by decide)
  exact ⟨h.1, (h.2.1 "list_of_integer" rfl).1, h.2.2 [some aW3] (List.mem_singleton.mpr rfl)⟩

/-- A network with one node carrying an attribute with declared type double
but integer runtime value. -/
def exC6 : CxNetwork :=
  { nodes := [(1, [("@id", .pyInt 1), ("n", .pyStr "N")])],
    edges := [],
    nodeAttributes := [(1, [some ⟨"x", .pyInt 5, some "double"⟩])],
    edgeAttributes := [],
    networkAttributes := [],
    networkName := some "n6" }

/-- C6: refuted by the code.  The node-scope key loop never consults the
declared type d: for the node attribute x with d = "double" and value 5 the
declared key's attr.type is "integer" (from the runtime type), not the
coercion of the declared type. -/
theorem c6_declared_type_counterexample :
    ((generate_xml_for_node_keys exC6).find? (fun el => idOf el = some "x")).map attrTypeOf
      = some (some "integer") ∧
    convert_data_type "double" = "double" ∧
    (some "integer" : Option String) ≠ some "double" := by
  refine ⟨by decide, by decide, by decide⟩

/-- C6 as amended: for graph-scope and edge-scope keys the coercion of the
declared type wins when d is present and the runtime type is used only when
d is absent, but node-scope keys always use the runtime type of the value
(the declared type is never consulted in _generate_xml_for_node_keys). -/
theorem c6_declared_type_amended (a : AttrRec) (hv : a.v ≠ .pyNone) :
    (∀ dt, a.d = some dt →
      attrTypeOf (netAttrKeySpec a) = some (convert_data_type dt) ∧
      attrTypeOf (edgeAttrKeySpec a) = some (convert_data_type dt)) ∧
    (a.d = none →
      attrTypeOf (netAttrKeySpec a) = some (convert_data_type (pyTypeName a.v)) ∧
      attrTypeOf (edgeAttrKeySpec a) = some (convert_data_type (pyTypeName a.v))) ∧
    attrTypeOf (nodeAttrKeySpec a) = some (convert_data_type (pyTypeName a.v)) := by
  obtain ⟨n, v, d⟩ := a
  simp only at hv
  refine ⟨?_, ?_, ?_⟩
  · intro dt hd
    simp only at hd
    subst hd
    cases v with
    | pyNone => exact absurd rfl hv
    | pyInt i => exact ⟨rfl, rfl⟩
    | pyStr s => exact ⟨rfl, rfl⟩
    | pyBool b => exact ⟨rfl, rfl⟩
    | pyList xs => exact ⟨rfl, rfl⟩
  · intro hd
    simp only at hd
    subst hd
    cases v with
    | pyNone => exact absurd rfl hv
    | pyInt i => exact ⟨rfl, rfl⟩
    | pyStr s => exact ⟨rfl, rfl⟩
    | pyBool b => exact ⟨rfl, rfl⟩
    | pyList xs => exact ⟨rfl, rfl⟩
  · cases v with
    | pyNone => exact absurd rfl hv
    | pyInt i => exact rfl
    | pyStr s => exact rfl
    | pyBool b => exact rfl
    | pyList xs => exact rfl

/-- The concrete record used to witness c6_declared_type_amended. -/
def aW6 : AttrRec := ⟨"x", .pyInt 5, some "double"⟩

/-- Witness for c6_declared_type_amended at the record aW6. -/
theorem c6_declared_type_amended_witness :
    attrTypeOf (netAttrKeySpec aW6) = some "double" ∧
    attrTypeOf (edgeAttrKeySpec aW6) = some "double" := by
  have h := c6_declared_type_amended aW6 (fun hh => nomatch hh)
  exact h.1 "double" rfl

/-- The id attribute of a graph-scope key element equals the record name. -/
theorem idOf_netAttrKeySpec (a : AttrRec) : idOf (netAttrKeySpec a) = some a.n := by
  obtain ⟨n, v, d⟩ := a
  cases v <;> cases d <;> rfl

/-- Every record name not yet in the seen set gets a key element with that
id somewhere in the output of netKeysGo. -/
theorem netKeysGo_mem (attrs : List AttrRec) :
    ∀ seen, ∀ a ∈ attrs, a.n ∉ seen → a.n ∈ keyIds (netKeysGo attrs seen) := by
  induction attrs with
  | nil => intro seen a ha _; exact absurd ha (List.not_mem_nil a)
  | cons b rest ih =>
    intro seen a ha hns
    rcases List.mem_cons.mp ha with rfl | ha2
    · by_cases hb : a.n ∈ seen
      · exact absurd hb hns
      · rw [netKeysGo, if_neg hb]
        have hc : keyIds (netAttrKeySpec a :: netKeysGo rest (a.n :: seen)) =
            a.n :: keyIds (netKeysGo rest (a.n :: seen)) := by
          simp [keyIds, idOf_netAttrKeySpec]
        rw [hc]
        exact List.mem_cons_self _ _
    · by_cases hb : b.n ∈ seen
      · rw [netKeysGo, if_pos hb]
        exact ih seen a ha2 hns
      · rw [netKeysGo, if_neg hb]
        have hc : keyIds (netAttrKeySpec b :: netKeysGo rest (b.n :: seen)) =
            b.n :: keyIds (netKeysGo rest (b.n :: seen)) := by
          simp [keyIds, idOf_netAttrKeySpec]
        rw [hc]
        by_cases hab : a.n = b.n
        · rw [hab]; exact List.mem_cons_self _ _
        · refine List.mem_cons_of_mem _ (ih (b.n :: seen) a ha2 ?_)
          intro hmem
          rcases List.mem_cons.mp hmem with h1 | h1
          · exact hab h1
          · exact hns h1

/-- A network whose only network attribute is literally named name. -/
def exC7 : CxNetwork :=
  { nodes := [], edges := [], nodeAttributes := [], edgeAttributes := [],
    networkAttributes := [⟨"name", .pyStr "T", none⟩],
    networkName := some "T" }

/-- C7: refuted by the code.  Neither _generate_xml_for_net_keys nor
_generate_xml_for_data excludes the network attribute named name: for exC7 a
graph-scope key element with id name and a graph-level data element with key
name are both emitted, although the name is also consumed for the graph id. -/
theorem c7_name_key_counterexample :
    keyIds (generate_xml_for_net_keys exC7) = ["name"] ∧
    dataKeys (generate_xml_for_data exC7) = ["name"] := by
  refine ⟨by decide, by decide⟩

/-- C7 as amended: every network attribute record, with no exception for the
record named name (which additionally supplies the graph id), yields a
graph-scope key element with its name as id (one per distinct name, by the
first-occurrence deduplication) and a graph-level data element keyed by its
name. -/
theorem c7_network_name_amended (net : CxNetwork) (a : AttrRec)
    (ha : a ∈ net.networkAttributes) :
    a.n ∈ keyIds (generate_xml_for_net_keys net) ∧
    (⟨"data", [("key", a.n)], some (pyToStr a.v)⟩ : LeafEl) ∈ generate_xml_for_data net := by
  constructor
  · exact netKeysGo_mem net.networkAttributes [] a ha (List.not_mem_nil _)
  · exact List.mem_map_of_mem _ ha

/-- The network used to witness c7_network_name_amended, whose network
attributes include the record named name. -/
def exW7 : CxNetwork :=
  { nodes := [], edges := [], nodeAttributes := [], edgeAttributes := [],
    networkAttributes := [⟨"name", .pyStr "T", none⟩, ⟨"author", .pyStr "me", none⟩],
    networkName := some "T" }

/-- Witness for c7_network_name_amended at the name record of exW7. -/
theorem c7_network_name_amended_witness :
    "name" ∈ keyIds (generate_xml_for_net_keys exW7) ∧
    (⟨"data", [("key", "name")], some "T"⟩ : LeafEl) ∈ generate_xml_for_data exW7 := by
  have h := c7_network_name_amended exW7 ⟨"name", .pyStr "T", none⟩
    (List.mem_cons_self _ _)
  exact h

/-- Every inline edge data element avoids the keys at-id and key, provided
no inline item is literally named key: the @id item is always skipped, and
the translation maps no other name to at-id or key. -/
theorem edgeInlineData_keys (edge : PyDict) (hinline : ∀ p ∈ edge, p.1 ≠ "key") :
    ∀ l ∈ edgeInlineData edge, dataKeyOf l ≠ some "@id" ∧ dataKeyOf l ≠ some "key" := by
  intro l hl
  obtain ⟨p, hp, hf⟩ := List.mem_filterMap.mp hl
  by_cases hskip : p.1 = "@id" ∨ p.1 = "s" ∨ p.1 = "t"
  · rw [if_pos hskip] at hf
    exact Option.noConfusion hf
  · rw [if_neg hskip] at hf
    obtain rfl := Option.some.inj hf
    have hid : p.1 ≠ "@id" := fun h => hskip (Or.inl h)
    have hk : dataKeyOf (⟨"data", [("key", translate_edge_key_names p.1)],
        some (pyToStr p.2)⟩ : LeafEl) = some (translate_edge_key_names p.1) := rfl
    rw [hk]
    by_cases h1 : p.1 = "i"
    · have ht : translate_edge_key_names p.1 = "interaction" := by
        rw [translate_edge_key_names, if_pos h1]
      rw [ht]
      exact ⟨by decide, by decide⟩
    · have ht : translate_edge_key_names p.1 = p.1 := by
        rw [translate_edge_key_names, if_neg h1, if_neg hid]
      rw [ht]
      exact ⟨fun h => hid (Option.some.inj h), fun h => hinline p hp (Option.some.inj h)⟩

/-- Every edge-attribute data element avoids the keys at-id and key when no
attribute record carries those literal names. -/
theorem edgeAttrData_keys (attrs : List (Option AttrRec))
    (hrec : ∀ o ∈ attrs, ∀ a : AttrRec, o = some a → a.n ≠ "@id" ∧ a.n ≠ "key") :
    ∀ l ∈ edgeAttrData attrs, dataKeyOf l ≠ some "@id" ∧ dataKeyOf l ≠ some "key" := by
  intro l hl
  obtain ⟨o, ho, hf⟩ := List.mem_filterMap.mp hl
  cases o with
  | none => exact Option.noConfusion hf
  | some a =>
    have hf2 : (if a.n = "s" ∨ a.n = "t" then none
        else some (⟨"data", [("key", a.n)], some (pyToStr a.v)⟩ : LeafEl)) = some l := hf
    by_cases hst : a.n = "s" ∨ a.n = "t"
    · rw [if_pos hst] at hf2
      exact Option.noConfusion hf2
    · rw [if_neg hst] at hf2
      obtain rfl := Option.some.inj hf2
      have hn := hrec (some a) ho a rfl
      have hk : dataKeyOf (⟨"data", [("key", a.n)], some (pyToStr a.v)⟩ : LeafEl) =
          some a.n := rfl
      rw [hk]
      exact ⟨fun h => hn.1 (Option.some.inj h), fun h => hn.2 (Option.some.inj h)⟩

/-- A network whose edge carries an attribute record literally named key. -/
def exC10 : CxNetwork :=
  { nodes := [],
    edges := [(7, [("@id", .pyInt 7), ("s", .pyInt 1), ("t", .pyInt 2)])],
    nodeAttributes := [],
    edgeAttributes := [(7, [some ⟨"key", .pyStr "x", none⟩])],
    networkAttributes := [],
    networkName := some "n10" }

/-- C10: refuted as a universal statement.  An edge attribute record
literally named key is serialized as a data element with key "key", which
references the unconditionally pre-declared edge-scope KeySpec named key. -/
theorem c10_key_data_counterexample :
    edgeDataKeys exC10 = some ["key"] ∧
    "key" ∈ keyIds (generate_xml_for_edge_keys exC10) := by
  refine ⟨by decide, by decide⟩

/-- C10 as amended: the edge identity field @id is always skipped during
edge serialization and no translation produces the key at-id, so a data
element with key at-id or key appears under an edge only when an inline item
is literally named key or an attribute record is literally named at-id or
key; in their absence the pre-declared key KeySpec is never referenced. -/
theorem c10_edge_identity_skipped_amended (net : CxNetwork) (edge : PyDict)
    (hinline : ∀ p ∈ edge, p.1 ≠ "key")
    (hattrs : ∀ attrs, get_edge_attributes net edge = some attrs →
      ∀ o ∈ attrs, ∀ a : AttrRec, o = some a → a.n ≠ "@id" ∧ a.n ≠ "key") :
    ∀ l ∈ get_xml_for_under_edge net edge,
      dataKeyOf l ≠ some "@id" ∧ dataKeyOf l ≠ some "key" := by
  intro l hl
  rw [get_xml_for_under_edge] at hl
  cases hge : get_edge_attributes net edge with
  | none =>
    rw [hge] at hl
    exact edgeInlineData_keys edge hinline l hl
  | some attrs =>
    rw [hge] at hl
    rcases List.mem_append.mp hl with h1 | h2
    · exact edgeInlineData_keys edge hinline l h1
    · exact edgeAttrData_keys attrs (hattrs attrs hge) l h2

/-- The edge dict used to witness c10_edge_identity_skipped_amended. -/
def edgeW10 : PyDict := [("@id", .pyInt 7), ("s", .pyInt 1), ("t", .pyInt 2)]

/-- The network used to witness c10_edge_identity_skipped_amended: edgeW10
carries one ordinary attribute named weight. -/
def exW10 : CxNetwork :=
  { nodes := [], edges := [(7, edgeW10)], nodeAttributes := [],
    edgeAttributes := [(7, [some ⟨"weight", .pyStr "5", none⟩])],
    networkAttributes := [], networkName := none }

/-- Generic first-occurrence deduplication over a stream of named elements:
an occurrence whose name is already in the seen set is dropped, otherwise it
is kept (with the element exactly as it occurred) and its name is added.
Returns the final seen set and the kept pairs. -/
def dedupFirst (seen : List String) : List (String × LeafEl) → List String × List (String × LeafEl)
  | [] => (seen, [])
  | (n, el) :: rest =>
    if n ∈ seen then dedupFirst seen rest
    else ((dedupFirst (n :: seen) rest).1, (n, el) :: (dedupFirst (n :: seen) rest).2)

/-- The undeduplicated stream of (name, key element) occurrences walked by
_generate_xml_for_net_keys: one per network attribute record, in order. -/
def rawNetKeyOcc (attrs : List AttrRec) : List (String × LeafEl) :=
  attrs.map (fun a => (a.n, netAttrKeySpec a))

/-- The undeduplicated (name, key element) occurrences of the inline loop of
_generate_xml_for_node_keys over one node dict (the @id/n/r skips applied,
the deduplication not). -/
def rawNodeInlineOcc : PyDict → List (String × LeafEl)
  | [] => []
  | (nid, val) :: rest =>
    if nid = "@id" ∨ nid = "n" ∨ nid = "r" then rawNodeInlineOcc rest
    else (nid, nodeInlineKeySpec nid val) :: rawNodeInlineOcc rest

/-- The undeduplicated (translated name, key element) occurrences of the
attribute loop of _generate_xml_for_node_keys over one attribute list. -/
def rawNodeAttrOcc : List (Option AttrRec) → List (String × LeafEl)
  | [] => []
  | none :: rest => rawNodeAttrOcc rest
  | some a :: rest => (translate_node_key_names a.n, nodeAttrKeySpec a) :: rawNodeAttrOcc rest

/-- The full undeduplicated occurrence stream of
_generate_xml_for_node_keys, including its truncation: a node whose
attribute list is None ends the stream after its inline occurrences. -/
def rawNodeKeyOcc (net : CxNetwork) : List (Int × PyDict) → List (String × LeafEl)
  | [] => []
  | (_, node) :: rest =>
    rawNodeInlineOcc node ++
    (match get_node_attributes net node with
     | none => []
     | some attrs => rawNodeAttrOcc attrs ++ rawNodeKeyOcc net rest)

/-- The undeduplicated (translated name, key element) occurrences of the
attribute loop of _generate_xml_for_edge_keys over one attribute list. -/
def rawEdgeAttrOcc : List (Option AttrRec) → List (String × LeafEl)
  | [] => []
  | none :: rest => rawEdgeAttrOcc rest
  | some a :: rest => (translate_edge_key_names a.n, edgeAttrKeySpec a) :: rawEdgeAttrOcc rest

/-- The full undeduplicated occurrence stream of
_generate_xml_for_edge_keys (an edge with attribute list None is skipped,
not truncating). -/
def rawEdgeKeyOcc (net : CxNetwork) : List (Int × PyDict) → List (String × LeafEl)
  | [] => []
  | (_, edge) :: rest =>
    match get_edge_attributes net edge with
    | none => rawEdgeKeyOcc net rest
    | some attrs => rawEdgeAttrOcc attrs ++ rawEdgeKeyOcc net rest

/-- dedupFirst distributes over append, threading the seen set. -/
theorem dedupFirst_append (l1 l2 : List (String × LeafEl)) :
    ∀ seen, dedupFirst seen (l1 ++ l2) =
      ((dedupFirst (dedupFirst seen l1).1 l2).1,
       (dedupFirst seen l1).2 ++ (dedupFirst (dedupFirst seen l1).1 l2).2) := by
  induction l1 with
  | nil => intro seen; rfl
  | cons p rest ih =>
    intro seen
    obtain ⟨n, el⟩ := p
    by_cases hn : n ∈ seen
    · simp only [List.cons_append, dedupFirst, if_pos hn]
      exact ih seen
    · simp only [List.cons_append, dedupFirst, if_neg hn]
      rw [show rest.append l2 = rest ++ l2 from rfl, ih (n :: seen)]

/-- netKeysGo is the first-occurrence deduplication of its raw occurrence
stream. -/
theorem netKeysGo_eq (attrs : List AttrRec) :
    ∀ seen, netKeysGo attrs seen = (dedupFirst seen (rawNetKeyOcc attrs)).2.map Prod.snd := by
  induction attrs with
  | nil => intro seen; rfl
  | cons a rest ih =>
    intro seen
    by_cases ha : a.n ∈ seen
    · simp only [netKeysGo, if_pos ha, rawNetKeyOcc, List.map_cons, dedupFirst]
      exact ih seen
    · simp only [netKeysGo, if_neg ha, rawNetKeyOcc, List.map_cons, dedupFirst]
      rw [ih (a.n :: seen)]
      rfl

/-- The inline loop of the node-key walk is the first-occurrence
deduplication of its raw occurrence stream. -/
theorem nodeInlineKeysGo_eq (items : PyDict) :
    ∀ kset, nodeInlineKeysGo items kset =
      ((dedupFirst kset (rawNodeInlineOcc items)).1,
       (dedupFirst kset (rawNodeInlineOcc items)).2.map Prod.snd) := by
  induction items with
  | nil => intro kset; rfl
  | cons p rest ih =>
    intro kset
    obtain ⟨nid, val⟩ := p
    by_cases hskip : nid = "@id" ∨ nid = "n" ∨ nid = "r"
    · simp only [nodeInlineKeysGo, if_pos hskip, rawNodeInlineOcc]
      exact ih kset
    · by_cases hmem : nid ∈ kset
      · simp only [nodeInlineKeysGo, if_neg hskip, if_pos hmem, rawNodeInlineOcc,
          dedupFirst]
        exact ih kset
      · simp only [nodeInlineKeysGo, if_neg hskip, if_neg hmem, rawNodeInlineOcc,
          dedupFirst]
        rw [ih (nid :: kset)]
        rfl

/-- The attribute loop of the node-key walk is the first-occurrence
deduplication of its raw occurrence stream. -/
theorem nodeAttrKeysGo_eq (attrs : List (Option AttrRec)) :
    ∀ kset, nodeAttrKeysGo attrs kset =
      ((dedupFirst kset (rawNodeAttrOcc attrs)).1,
       (dedupFirst kset (rawNodeAttrOcc attrs)).2.map Prod.snd) := by
  induction attrs with
  | nil => intro kset; rfl
  | cons o rest ih =>
    intro kset
    cases o with
    | none =>
      simp only [nodeAttrKeysGo, rawNodeAttrOcc]
      exact ih kset
    | some a =>
      by_cases hmem : translate_node_key_names a.n ∈ kset
      · simp only [nodeAttrKeysGo, if_pos hmem, rawNodeAttrOcc, dedupFirst]
        exact ih kset
      · simp only [nodeAttrKeysGo, if_neg hmem, rawNodeAttrOcc, dedupFirst]
        rw [ih (translate_node_key_names a.n :: kset)]
        rfl

/-- The whole node-key walk (with its early-return truncation) is the
first-occurrence deduplication of rawNodeKeyOcc. -/
theorem nodeKeysNodesGo_eq (net : CxNetwork) (nodes : List (Int × PyDict)) :
    ∀ kset, nodeKeysNodesGo net nodes kset =
      (dedupFirst kset (rawNodeKeyOcc net nodes)).2.map Prod.snd := by
  induction nodes with
  | nil => intro kset; rfl
  | cons p rest ih =>
    intro kset
    obtain ⟨i, node⟩ := p
    cases hna : get_node_attributes net node with
    | none =>
      simp only [nodeKeysNodesGo, hna, rawNodeKeyOcc]
      rw [nodeInlineKeysGo_eq node kset]
      simp [dedupFirst_append]
    | some attrs =>
      simp only [nodeKeysNodesGo, hna, rawNodeKeyOcc]
      rw [nodeInlineKeysGo_eq node kset, nodeAttrKeysGo_eq attrs,
        ih ((dedupFirst (dedupFirst kset (rawNodeInlineOcc node)).1 (rawNodeAttrOcc attrs)).1)]
      rw [dedupFirst_append, dedupFirst_append]
      simp

/-- The attribute loop of the edge-key walk is the first-occurrence
deduplication of its raw occurrence stream. -/
theorem edgeAttrKeysGo_eq (attrs : List (Option AttrRec)) :
    ∀ kset, edgeAttrKeysGo attrs kset =
      ((dedupFirst kset (rawEdgeAttrOcc attrs)).1,
       (dedupFirst kset (rawEdgeAttrOcc attrs)).2.map Prod.snd) := by
  induction attrs with
  | nil => intro kset; rfl
  | cons o rest ih =>
    intro kset
    cases o with
    | none =>
      simp only [edgeAttrKeysGo, rawEdgeAttrOcc]
      exact ih kset
    | some a =>
      by_cases hmem : translate_edge_key_names a.n ∈ kset
      · simp only [edgeAttrKeysGo, if_pos hmem, rawEdgeAttrOcc, dedupFirst]
        exact ih kset
      · simp only [edgeAttrKeysGo, if_neg hmem, rawEdgeAttrOcc, dedupFirst]
        rw [ih (translate_edge_key_names a.n :: kset)]
        rfl

/-- The whole edge-key walk is the first-occurrence deduplication of
rawEdgeKeyOcc. -/
theorem edgeKeysEdgesGo_eq (net : CxNetwork) (edges : List (Int × PyDict)) :
    ∀ kset, edgeKeysEdgesGo net edges kset =
      (dedupFirst kset (rawEdgeKeyOcc net edges)).2.map Prod.snd := by
  induction edges with
  | nil => intro kset; rfl
  | cons p rest ih =>
    intro kset
    obtain ⟨i, edge⟩ := p
    cases hea : get_edge_attributes net edge with
    | none =>
      simp only [edgeKeysEdgesGo, hea, rawEdgeKeyOcc]
      exact ih kset
    | some attrs =>
      simp only [edgeKeysEdgesGo, hea, rawEdgeKeyOcc]
      rw [edgeAttrKeysGo_eq attrs kset, ih (dedupFirst kset (rawEdgeAttrOcc attrs)).1]
      rw [dedupFirst_append]
      simp

/-- Witness for c10_edge_identity_skipped_amended at exW10/edgeW10. -/
theorem c10_edge_identity_skipped_amended_witness :
    dataKeyOf (⟨"data", [("key", "weight")], some "5"⟩ : LeafEl) ≠ some "@id" ∧
    dataKeyOf (⟨"data", [("key", "weight")], some "5"⟩ : LeafEl) ≠ some "key" := by
  have h := c10_edge_identity_skipped_amended exW10 edgeW10
    (by decide)
    (by
      intro attrs hEq o ho a hoa
      have h2 : some [some (⟨"weight", .pyStr "5", none⟩ : AttrRec)] = some attrs := by
        rw [← hEq]
        rfl
      obtain rfl := Option.some.inj h2
      rw [List.mem_singleton] at ho
      subst ho
      obtain rfl := Option.some.inj hoa
      exact ⟨by decide, by decide⟩)
  exact h ⟨"data", [("key", "weight")], some "5"⟩ (by decide)

/-- Every pair kept by dedupFirst occurs in the input stream. -/
theorem dedupFirst_mem (l : List (String × LeafEl)) :
    ∀ seen p, p ∈ (dedupFirst seen l).2 → p ∈ l := by
  induction l with
  | nil => intro seen p hp; exact absurd hp (List.not_mem_nil p)
  | cons q rest ih =>
    intro seen p hp
    obtain ⟨n, el⟩ := q
    by_cases hn : n ∈ seen
    · rw [dedupFirst, if_pos hn] at hp
      exact List.mem_cons_of_mem _ (ih seen p hp)
    · rw [dedupFirst, if_neg hn] at hp
      rcases List.mem_cons.mp hp with rfl | hp2
      · exact List.mem_cons_self _ _
      · exact List.mem_cons_of_mem _ (ih (n :: seen) p hp2)

/-- The names kept by dedupFirst are pairwise distinct and disjoint from the
initial seen set. -/
theorem dedupFirst_names (l : List (String × LeafEl)) :
    ∀ seen, ((dedupFirst seen l).2.map Prod.fst).Nodup ∧
      ∀ x ∈ (dedupFirst seen l).2.map Prod.fst, x ∉ seen := by
  induction l with
  | nil => intro seen; exact ⟨List.nodup_nil, fun x hx => absurd hx (List.not_mem_nil x)⟩
  | cons q rest ih =>
    intro seen
    obtain ⟨n, el⟩ := q
    by_cases hn : n ∈ seen
    · rw [dedupFirst, if_pos hn]
      exact ih seen
    · rw [dedupFirst, if_neg hn]
      have h := ih (n :: seen)
      constructor
      · rw [List.map_cons]
        refine List.nodup_cons.mpr ⟨?_, h.1⟩
        intro hmem
        exact h.2 n hmem (List.mem_cons_self _ _)
      · intro x hx
        rw [List.map_cons] at hx
        rcases List.mem_cons.mp hx with rfl | hx2
        · exact hn
        · intro hxs
          exact h.2 x hx2 (List.mem_cons_of_mem _ hxs)

/-- The id attribute of an inline node key element is the item name. -/
theorem idOf_nodeInlineKeySpec (nid : String) (val : PyVal) :
    idOf (nodeInlineKeySpec nid val) = some nid := by
  cases val <;> rfl

/-- The id attribute of a node-attribute key element is the translated
record name. -/
theorem idOf_nodeAttrKeySpec (a : AttrRec) :
    idOf (nodeAttrKeySpec a) = some (translate_node_key_names a.n) := by
  obtain ⟨n, v, d⟩ := a
  cases v <;> rfl

/-- The id attribute of an edge-attribute key element is the translated
record name. -/
theorem idOf_edgeAttrKeySpec (a : AttrRec) :
    idOf (edgeAttrKeySpec a) = some (translate_edge_key_names a.n) := by
  obtain ⟨n, v, d⟩ := a
  cases v <;> cases d <;> rfl

/-- Every occurrence in the graph-scope raw stream carries its own name as
its id attribute. -/
theorem rawNetKeyOcc_id (attrs : List AttrRec) :
    ∀ p ∈ rawNetKeyOcc attrs, idOf p.2 = some p.1 := by
  intro p hp
  obtain ⟨a, _, rfl⟩ := List.mem_map.mp hp
  exact idOf_netAttrKeySpec a

/-- Every occurrence in the inline node raw stream carries its own name as
its id attribute. -/
theorem rawNodeInlineOcc_id (node : PyDict) :
    ∀ p ∈ rawNodeInlineOcc node, idOf p.2 = some p.1 := by
  induction node with
  | nil => intro p hp; exact absurd hp (List.not_mem_nil p)
  | cons q rest ih =>
    intro p hp
    obtain ⟨nid, val⟩ := q
    by_cases hskip : nid = "@id" ∨ nid = "n" ∨ nid = "r"
    · rw [rawNodeInlineOcc, if_pos hskip] at hp
      exact ih p hp
    · rw [rawNodeInlineOcc, if_neg hskip] at hp
      rcases List.mem_cons.mp hp with rfl | hp2
      · exact idOf_nodeInlineKeySpec nid val
      · exact ih p hp2

/-- Every occurrence in the node-attribute raw stream carries its own name
as its id attribute. -/
theorem rawNodeAttrOcc_id (attrs : List (Option AttrRec)) :
    ∀ p ∈ rawNodeAttrOcc attrs, idOf p.2 = some p.1 := by
  induction attrs with
  | nil => intro p hp; exact absurd hp (List.not_mem_nil p)
  | cons o rest ih =>
    intro p hp
    cases o with
    | none => exact ih p hp
    | some a =>
      rcases List.mem_cons.mp hp with rfl | hp2
      · exact idOf_nodeAttrKeySpec a
      · exact ih p hp2

/-- Every occurrence in the full node-scope raw stream carries its own name
as its id attribute. -/
theorem rawNodeKeyOcc_id (net : CxNetwork) (nodes : List (Int × PyDict)) :
    ∀ p ∈ rawNodeKeyOcc net nodes, idOf p.2 = some p.1 := by
  induction nodes with
  | nil => intro p hp; exact absurd hp (List.not_mem_nil p)
  | cons q rest ih =>
    intro p hp
    obtain ⟨i, node⟩ := q
    rw [rawNodeKeyOcc] at hp
    rcases List.mem_append.mp hp with h1 | h2
    · exact rawNodeInlineOcc_id node p h1
    · cases hna : get_node_attributes net node with
      | none => rw [hna] at h2; exact absurd h2 (List.not_mem_nil p)
      | some attrs =>
        rw [hna] at h2
        rcases List.mem_append.mp h2 with h3 | h4
        · exact rawNodeAttrOcc_id attrs p h3
        · exact ih p h4

/-- Every occurrence in the edge-attribute raw stream carries its own name
as its id attribute. -/
theorem rawEdgeAttrOcc_id (attrs : List (Option AttrRec)) :
    ∀ p ∈ rawEdgeAttrOcc attrs, idOf p.2 = some p.1 := by
  induction attrs with
  | nil => intro p hp; exact absurd hp (List.not_mem_nil p)
  | cons o rest ih =>
    intro p hp
    cases o with
    | none => exact ih p hp
    | some a =>
      rcases List.mem_cons.mp hp with rfl | hp2
      · exact idOf_edgeAttrKeySpec a
      · exact ih p hp2

/-- Every occurrence in the full edge-scope raw stream carries its own name
as its id attribute. -/
theorem rawEdgeKeyOcc_id (net : CxNetwork) (edges : List (Int × PyDict)) :
    ∀ p ∈ rawEdgeKeyOcc net edges, idOf p.2 = some p.1 := by
  induction edges with
  | nil => intro p hp; exact absurd hp (List.not_mem_nil p)
  | cons q rest ih =>
    intro p hp
    obtain ⟨i, edge⟩ := q
    rw [rawEdgeKeyOcc] at hp
    cases hea : get_edge_attributes net edge with
    | none => rw [hea] at hp; exact ih p hp
    | some attrs =>
      rw [hea] at hp
      rcases List.mem_append.mp hp with h1 | h2
      · exact rawEdgeAttrOcc_id attrs p h1
      · exact ih p h2

/-- When every pair carries its own name as id, the declared ids of the
projected elements are exactly the names. -/
theorem keyIds_map_snd (pairs : List (String × LeafEl))
    (h : ∀ p ∈ pairs, idOf p.2 = some p.1) :
    keyIds (pairs.map Prod.snd) = pairs.map Prod.fst := by
  induction pairs with
  | nil => rfl
  | cons p rest ih =>
    rw [List.map_cons, List.map_cons, keyIds, List.filterMap_cons,
      h p (List.mem_cons_self _ _)]
    exact congrArg _ (ih (fun q hq => h q (List.mem_cons_of_mem _ hq)))

/-- The declared ids of a deduplicated raw stream, given the id property of
the stream. -/
theorem keyIds_dedup (raw : List (String × LeafEl)) (seen : List String)
    (h : ∀ p ∈ raw, idOf p.2 = some p.1) :
    keyIds ((dedupFirst seen raw).2.map Prod.snd) = (dedupFirst seen raw).2.map Prod.fst :=
  keyIds_map_snd _ (fun p hp => h p (dedupFirst_mem raw seen p hp))

/-- A seeded-plus-deduplicated key list has pairwise distinct ids when the
seed ids are distinct and lie in the initial seen set. -/
theorem nodup_seeded_dedup (seedEls : List LeafEl) (seedIds : List String)
    (raw : List (String × LeafEl))
    (hseed : keyIds seedEls = seedIds) (hnd : seedIds.Nodup)
    (hid : ∀ p ∈ raw, idOf p.2 = some p.1) :
    (keyIds (seedEls ++ (dedupFirst seedIds raw).2.map Prod.snd)).Nodup := by
  rw [keyIds, List.filterMap_append]
  have h2 := keyIds_dedup raw seedIds hid
  rw [keyIds] at hseed h2
  rw [hseed, h2]
  have hn := dedupFirst_names raw seedIds
  refine List.Nodup.append hnd hn.1 ?_
  intro x hx1 hx2
  exact hn.2 x hx2 hx1

/-- C5: within each single scope the emitted key list is exactly the
first-occurrence deduplication of the scope's raw occurrence stream (each
occurrence pairing an attribute name with the key element computed from that
occurrence, in traversal order), so each name yields at most one key element
whose attr.type comes from the first occurrence of the name, and the
declared ids of each scope's key list are pairwise distinct. -/
theorem c5_key_dedup_first_wins (net : CxNetwork) :
    generate_xml_for_net_keys net =
      (dedupFirst [] (rawNetKeyOcc net.networkAttributes)).2.map Prod.snd ∧
    generate_xml_for_node_keys net =
      write_name_represents_keys ++
        (dedupFirst ["name", "represents"] (rawNodeKeyOcc net net.nodes)).2.map Prod.snd ∧
    generate_xml_for_edge_keys net =
      write_interaction_keys ++
        (dedupFirst ["interaction", "key"] (rawEdgeKeyOcc net net.edges)).2.map Prod.snd ∧
    (keyIds (generate_xml_for_net_keys net)).Nodup ∧
    (keyIds (generate_xml_for_node_keys net)).Nodup ∧
    (keyIds (generate_xml_for_edge_keys net)).Nodup := by
  have hnet : generate_xml_for_net_keys net =
      (dedupFirst [] (rawNetKeyOcc net.networkAttributes)).2.map Prod.snd :=
    netKeysGo_eq net.networkAttributes []
  have hnode : generate_xml_for_node_keys net =
      write_name_represents_keys ++
        (dedupFirst ["name", "represents"] (rawNodeKeyOcc net net.nodes)).2.map Prod.snd := by
    rw [generate_xml_for_node_keys, nodeKeysNodesGo_eq net net.nodes]
  have hedge : generate_xml_for_edge_keys net =
      write_interaction_keys ++
        (dedupFirst ["interaction", "key"] (rawEdgeKeyOcc net net.edges)).2.map Prod.snd := by
    rw [generate_xml_for_edge_keys, edgeKeysEdgesGo_eq net net.edges]
  refine ⟨hnet, hnode, hedge, ?_, ?_, ?_⟩
  · rw [hnet, keyIds_dedup _ _ (rawNetKeyOcc_id net.networkAttributes)]
    exact (dedupFirst_names (rawNetKeyOcc net.networkAttributes) []).1
  · rw [hnode]
    exact nodup_seeded_dedup write_name_represents_keys ["name", "represents"] _
      (by decide) (by decide) (rawNodeKeyOcc_id net net.nodes)
  · rw [hedge]
    exact nodup_seeded_dedup write_interaction_keys ["interaction", "key"] _
      (by decide) (by decide) (rawEdgeKeyOcc_id net net.edges)

end NdexGraphML
